import Mathlib

/-!
Verification development for the pyot session and routing layer.

The definitions below embed the routing, session and pipeline logic of
`pyot/mqtt.py` and `pyot/handler.py`:

* topic-filter matching (the semantics of paho's `topic_matches_sub`,
  the external matching primitive the router delegates to),
* `MQTTClient._match_handler` (most-specific-match resolution),
* `MQTTClient._on_message` (dispatch with fallback and exception isolation),
* `MQTTClient.subscribe` (table update plus opportunistic live subscribe),
* `MQTTClient._on_connect` (replay of the subscription table),
* `MQTTClient.start` / `MQTTClient.stop` (idempotent session lifecycle),
* the handler pipelines of `handler.py` (`all(f() for f in steps)`
  short-circuit evaluation and the self-replacing memoized steps).

Python strings are Lean `String`s, `str.split("/")` is `splitSegs`,
Python dicts (insertion-ordered) are association lists, exceptions are
`Except` values, and callbacks are identifiers of an abstract type `α`
paired with explicit behaviour functions where behaviour matters.
-/

namespace Pyot

/-- Splitting a list of characters on the slash character, mirroring
Python's `str.split("/")` (an empty string yields one empty segment,
adjacent delimiters yield empty segments). -/
def splitSlash : List Char → List String
  | [] => [""]
  | c :: cs =>
    let rest := splitSlash cs
    if c = '/' then "" :: rest
    else
      match rest with
      | [] => [String.mk [c]]
      | s :: ss => String.mk (c :: s.data) :: ss

/-- `s.split("/")` on a Python string. -/
def splitSegs (s : String) : List String := splitSlash s.data

/-- Segment-wise filter matching: a literal segment must equal the topic
segment, `+` consumes exactly one segment, a final `#` consumes all
remaining segments (including zero). -/
def matchesSegs : List String → List String → Bool
  | ["#"], _ => true
  | [], ts => ts.isEmpty
  | _ :: _, [] => false
  | f :: fs, t :: ts => (f == "+" || f == t) && matchesSegs fs ts

/-- Whether a string starts with the dollar character. -/
def startsDollar (s : String) : Bool :=
  match s.data with
  | c :: _ => c = '$'
  | [] => false

/-- Whether the first segment of a filter is a wildcard. -/
def wildcardHead : List String → Bool
  | s :: _ => s == "#" || s == "+"
  | [] => false

/-- The semantics of paho's `topic_matches_sub(sub, topic)`: segment-wise
matching, except that a leading wildcard never matches a topic starting
with the dollar character. -/
def topic_matches_sub (sub topic : String) : Bool :=
  if startsDollar topic && wildcardHead (splitSegs sub) then false
  else matchesSegs (splitSegs sub) (splitSegs topic)

/-- `sum(1 for part in filt.split("/") if part not in ("#", "+"))` from
`MQTTClient._match_handler`. -/
def nonWildcards (filt : String) : Nat :=
  (splitSegs filt).countP (fun part => !(part == "#" || part == "+"))

/-- `score = (non_wildcards, len(filt))` from `MQTTClient._match_handler`:
the second component is the character length of the filter string. -/
def pscore (filt : String) : Int × Int :=
  ((nonWildcards filt : Int), (filt.length : Int))

/-- Python's `>` on pairs: lexicographic strict comparison, as used on
`score > best_score`. -/
def pairGt (a b : Int × Int) : Bool :=
  decide (b.1 < a.1 ∨ (a.1 = b.1 ∧ b.2 < a.2))

/-- The loop of `MQTTClient._match_handler` over `self._routes.items()`:
keeps the best filter and score seen so far, replacing only on strictly
greater score. Routes are an insertion-ordered association list, as a
Python dict is. -/
def bestLoop {α : Type} (topic : String) :
    List (String × Option α) → Option String → Int × Int →
    Option String × (Int × Int)
  | [], bf, bs => (bf, bs)
  | (filt, _) :: rest, bf, bs =>
    if topic_matches_sub filt topic then
      if pairGt (pscore filt) bs then bestLoop topic rest (some filt) (pscore filt)
      else bestLoop topic rest bf bs
    else bestLoop topic rest bf bs

/-- `self._routes.get(key)`: first binding of `key`, if any. -/
def routesGet {α : Type} : List (String × Option α) → String → Option (Option α)
  | [], _ => none
  | (f, h) :: rest, k => if f == k then some h else routesGet rest k

/-- `MQTTClient._match_handler(topic)`: run the best-score loop from
`best_filter = None, best_score = (-1, -1)` and return
`self._routes.get(best_filter)` (flattened, as in Python where a stored
`None` handler and an absent key are both `None`). -/
def matchHandler {α : Type} (routes : List (String × Option α)) (topic : String) :
    Option α :=
  match bestLoop topic routes none (-1, -1) with
  | (none, _) => none
  | (some bf, _) => (routesGet routes bf).join

/-- The handler selection of `MQTTClient._on_message`: the resolved
handler, falling back to the default `self._user_on_message` when
resolution returns `None`. -/
def onMessageResolve {α : Type} (routes : List (String × Option α))
    (default : Option α) (topic : String) : Option α :=
  match matchHandler routes topic with
  | none => default
  | some h => some h

/-- One `_on_message` callback run: resolve the handler and invoke it,
catching any exception it raises (`try/except` around `handler(...)`).
`beh` gives each handler's behaviour on a topic as an `Except` value.
Returns the invoked handler (if any) and whether an exception was caught
and logged. -/
def onMessageRun {α : Type} (routes : List (String × Option α))
    (default : Option α) (beh : α → String → Except String Unit)
    (topic : String) : Option α × Bool :=
  match onMessageResolve routes default topic with
  | none => (none, false)
  | some h =>
    match beh h topic with
    | Except.ok _ => (some h, false)
    | Except.error _ => (some h, true)

/-- Serial delivery of a list of inbound topics by the network thread:
each message is handed to `_on_message` in order. -/
def deliverAll {α : Type} (routes : List (String × Option α))
    (default : Option α) (beh : α → String → Except String Unit) :
    List String → List (Option α × Bool)
  | [] => []
  | t :: ts => onMessageRun routes default beh t :: deliverAll routes default beh ts

/-- The `try/except` wrapper inside every pipeline step body of
`handler.py`: the external call's outcome is converted to a boolean
result, an exception becoming `False`. -/
def stepResult (body : Except String Unit) : Bool :=
  match body with
  | Except.ok _ => true
  | Except.error _ => false

/-- One named pipeline step of a `handle` method, with the boolean
result its call would return on this run. -/
structure StepDef where
  name : String
  result : Bool

/-- `all(f() for f in steps)`: call the steps in order, stopping at the
first `False`. Returns the names of the steps actually executed and the
aggregate boolean. -/
def runAll : List StepDef → List String × Bool
  | [] => ([], true)
  | s :: rest =>
    if s.result then
      let r := runAll rest
      (s.name :: r.1, r.2)
    else ([s.name], false)

/-- `PushToServerHandler.handle` after step assembly: run the steps and
emit the single aggregate log line (`logger.debug` on success,
`logger.warning` on failure). Returns the executed step names and the
aggregate log message. -/
def handleLog (steps : List StepDef) : List String × String :=
  let r := runAll steps
  (r.1,
    if r.2 then "PushToServerHandler: all handlers successful"
    else "PushToServerHandler: handler failed")

/-- The class attribute holding a self-replacing step such as
`PushToServerHandler._create_data_directory`: either the original
classmethod, or the `lambda *args, **kwargs: True` it overwrites itself
with after its first success. -/
inductive StepSlot where
  | original
  | memoNoop
deriving DecidableEq

/-- One call of a self-replacing step: the no-op returns `True` without
running the body; the original runs the body and, on success, replaces
the class attribute with the no-op. Returns the new attribute value, the
step's boolean result, and whether the body ran. -/
def runMemoStep (slot : StepSlot) (body : Bool) : StepSlot × Bool × Bool :=
  match slot with
  | StepSlot.memoNoop => (StepSlot.memoNoop, true, false)
  | StepSlot.original =>
    if body then (StepSlot.memoNoop, true, true)
    else (StepSlot.original, false, true)

/-- A sequence of pipeline runs of a self-replacing step, threading the
class attribute; `bodies` gives the body's outcome on each run. Returns
the (result, body-ran) pair of every run. -/
def runMemoSeq (slot : StepSlot) : List Bool → List (Bool × Bool)
  | [] => []
  | b :: bs =>
    let r := runMemoStep slot b
    r.2 :: runMemoSeq r.1 bs

/-- Observable state of an `MQTTClient`: the routing tables, the
lifecycle flag, and traces of the externally visible transport calls. -/
structure ClientState (α : Type) where
  routes : List (String × Option α)
  routeQos : List (String × Nat)
  qos : Nat
  loopRunning : Bool
  connects : Nat
  loopStartCalls : Nat
  disconnects : Nat
  subCalls : List (String × Nat)
  subErrors : List String

/-- Python dict assignment `d[k] = v`: replace in place when the key
exists (keeping its insertion position), append otherwise. -/
def dictSet {β : Type} : List (String × β) → String → β → List (String × β)
  | [], k, v => [(k, v)]
  | (f, w) :: rest, k, v =>
    if f == k then (k, v) :: rest else (f, w) :: dictSet rest k v

/-- `MQTTClient.subscribe(topic_filter, handler=..., qos=...)`: store the
handler and qos unconditionally; if the loop is running, also issue a
live subscribe, logging (not raising) on a non-success result code.
`subResult` gives the transport's result code for a subscribe call. -/
def subscribe {α : Type} (st : ClientState α) (filt : String)
    (handler : Option α) (qosArg : Option Nat)
    (subResult : String → Nat → Nat) : ClientState α :=
  let q := match qosArg with | none => st.qos | some v => v
  let st1 := { st with
    routes := dictSet st.routes filt handler,
    routeQos := dictSet st.routeQos filt q }
  if st1.loopRunning then
    { st1 with
      subCalls := st1.subCalls ++ [(filt, q)],
      subErrors := st1.subErrors ++ (if subResult filt q ≠ 0 then [filt] else []) }
  else st1

/-- `MQTTClient.start()`: a no-op when the loop is already running;
otherwise one connect attempt (whose failure is caught and logged, not
raised), one `loop_start`, and the running flag is set. -/
def start {α : Type} (st : ClientState α) : ClientState α :=
  if st.loopRunning then st
  else { st with
    connects := st.connects + 1,
    loopStartCalls := st.loopStartCalls + 1,
    loopRunning := true }

/-- `MQTTClient.stop()`: a no-op when the loop is not running; otherwise
stop the loop, disconnect, and clear the running flag. -/
def stop {α : Type} (st : ClientState α) : ClientState α :=
  if st.loopRunning then
    { st with loopRunning := false, disconnects := st.disconnects + 1 }
  else st

/-- The replay loop of `MQTTClient._on_connect` over
`self._route_qos.items()`: one subscribe call per entry at its stored
qos; a non-success result code appends an error log entry and the loop
continues. Returns the subscribe calls issued and the filters whose
subscribe failed. -/
def replaySubs (subResult : String → Nat → Nat) :
    List (String × Nat) → List (String × Nat) × List String
  | [] => ([], [])
  | (f, q) :: rest =>
    let r := replaySubs subResult rest
    ((f, q) :: r.1, (if subResult f q ≠ 0 then [f] else []) ++ r.2)

/-- `MQTTClient._on_connect`: on reason code 0, replay the whole
subscription table; on any other reason code, only log a warning and
issue no subscribe calls. -/
def onConnect (routeQos : List (String × Nat)) (reasonCode : Nat)
    (subResult : String → Nat → Nat) : List (String × Nat) × List String :=
  if reasonCode = 0 then replaySubs subResult routeQos else ([], [])

/-- Spec-side definition for comparison: the total segment count of a
filter, the quantity the spec calls `filter_length`. -/
def specSegCount (filt : String) : Nat := (splitSegs filt).length

/-- Spec-side definition for comparison: the spec's specificity score
`(non_wildcard_segment_count, filter_length)` with `filter_length` the
total segment count. -/
def specScore (filt : String) : Int × Int :=
  ((nonWildcards filt : Int), (specSegCount filt : Int))

/-- Spec-side definition for comparison: a syntactically valid filter
per the spec (`#` only as the last segment, segment list non-empty). -/
def specValidFilter (filt : String) : Bool :=
  !(splitSegs filt).isEmpty &&
    (splitSegs filt).dropLast.all (fun s => !(s == "#"))

/-- A concrete fresh client state over `Nat` handler identifiers. -/
def initialState : ClientState Nat :=
  { routes := [], routeQos := [], qos := 1, loopRunning := false,
    connects := 0, loopStartCalls := 0, disconnects := 0,
    subCalls := [], subErrors := [] }

/-! ### Order facts about the score comparison -/

lemma pairGt_irrefl (a : Int × Int) : pairGt a a = false := by
  simp only [pairGt, decide_eq_false_iff_not]
  omega

lemma pairGt_false_trans {a b c : Int × Int}
    (h1 : pairGt a b = false) (h2 : pairGt b c = false) :
    pairGt a c = false := by
  simp only [pairGt, decide_eq_false_iff_not] at h1 h2 ⊢
  omega

lemma pairGt_true_false_trans {a b c : Int × Int}
    (h1 : pairGt b a = true) (h2 : pairGt b c = false) :
    pairGt a c = false := by
  simp only [pairGt, decide_eq_true_eq, decide_eq_false_iff_not] at h1 h2 ⊢
  omega

lemma pairGt_total {a b : Int × Int} (h : pairGt a b = false) (hne : a ≠ b) :
    pairGt b a = true := by
  obtain ⟨a1, a2⟩ := a
  obtain ⟨b1, b2⟩ := b
  simp only [pairGt, decide_eq_false_iff_not, decide_eq_true_eq] at h ⊢
  simp only [ne_eq, Prod.mk.injEq, not_and] at hne
  omega

lemma pairGt_init (f : String) : pairGt (pscore f) (-1, -1) = true := by
  simp only [pairGt, pscore, decide_eq_true_eq]
  left
  omega

/-! ### The best-score loop of `_match_handler` -/

lemma bestLoop_inv {α : Type} (topic : String) (l : List (String × Option α))
    (bf : Option String) (bs : Int × Int) :
    (((bestLoop topic l bf bs).1 = bf ∧ (bestLoop topic l bf bs).2 = bs) ∨
      (∃ g, (bestLoop topic l bf bs).1 = some g ∧ g ∈ l.map Prod.fst ∧
        topic_matches_sub g topic = true ∧ (bestLoop topic l bf bs).2 = pscore g)) ∧
    (∀ g ∈ l.map Prod.fst, topic_matches_sub g topic = true →
      pairGt (pscore g) (bestLoop topic l bf bs).2 = false) ∧
    pairGt bs (bestLoop topic l bf bs).2 = false := by
  induction l generalizing bf bs with
  | nil =>
    refine ⟨Or.inl ⟨rfl, rfl⟩, ?_, ?_⟩
    · intro g hg
      simp at hg
    · exact pairGt_irrefl bs
  | cons e rest ih =>
    obtain ⟨f, h⟩ := e
    by_cases hm : topic_matches_sub f topic = true
    · by_cases hgt : pairGt (pscore f) bs = true
      · have heq : bestLoop topic ((f, h) :: rest) bf bs =
            bestLoop topic rest (some f) (pscore f) := by
          simp [bestLoop, hm, hgt]
        rw [heq]
        obtain ⟨horig, hall, hmono⟩ := ih (some f) (pscore f)
        refine ⟨?_, ?_, ?_⟩
        · rcases horig with ⟨h1, h2⟩ | ⟨g, h1, h2, h3, h4⟩
          · exact Or.inr ⟨f, h1, by simp, hm, h2⟩
          · exact Or.inr ⟨g, h1, by simp [h2], h3, h4⟩
        · intro g hg hgm
          rcases List.mem_cons.mp hg with hg | hg
          · simpa [hg] using hmono
          · exact hall g hg hgm
        · exact pairGt_true_false_trans hgt hmono
      · have hgt' : pairGt (pscore f) bs = false := by
          cases hv : pairGt (pscore f) bs
          · rfl
          · exact absurd hv hgt
        have heq : bestLoop topic ((f, h) :: rest) bf bs =
            bestLoop topic rest bf bs := by
          simp [bestLoop, hm, hgt']
        rw [heq]
        obtain ⟨horig, hall, hmono⟩ := ih bf bs
        refine ⟨?_, ?_, ?_⟩
        · rcases horig with ⟨h1, h2⟩ | ⟨g, h1, h2, h3, h4⟩
          · exact Or.inl ⟨h1, h2⟩
          · exact Or.inr ⟨g, h1, by simp [h2], h3, h4⟩
        · intro g hg hgm
          rcases List.mem_cons.mp hg with hg | hg
          · rw [hg]
            exact pairGt_false_trans hgt' hmono
          · exact hall g hg hgm
        · exact hmono
    · have hm' : topic_matches_sub f topic = false := by
        cases hv : topic_matches_sub f topic
        · rfl
        · exact absurd hv hm
      have heq : bestLoop topic ((f, h) :: rest) bf bs =
          bestLoop topic rest bf bs := by
        simp [bestLoop, hm']
      rw [heq]
      obtain ⟨horig, hall, hmono⟩ := ih bf bs
      refine ⟨?_, ?_, ?_⟩
      · rcases horig with ⟨h1, h2⟩ | ⟨g, h1, h2, h3, h4⟩
        · exact Or.inl ⟨h1, h2⟩
        · exact Or.inr ⟨g, h1, by simp [h2], h3, h4⟩
      · intro g hg hgm
        rcases List.mem_cons.mp hg with hg | hg
        · rw [hg] at hgm
          rw [hgm] at hm'
          cases hm'
        · exact hall g hg hgm
      · exact hmono

lemma bestLoop_keep {α : Type} (topic : String) (l : List (String × Option α))
    (bf : Option String) (bs : Int × Int)
    (h : ∀ g ∈ l.map Prod.fst, topic_matches_sub g topic = true →
      pairGt (pscore g) bs = false) :
    bestLoop topic l bf bs = (bf, bs) := by
  induction l with
  | nil => rfl
  | cons e rest ih =>
    obtain ⟨f, hh⟩ := e
    by_cases hm : topic_matches_sub f topic = true
    · have hgt : pairGt (pscore f) bs = false := h f (by simp) hm
      have : bestLoop topic ((f, hh) :: rest) bf bs = bestLoop topic rest bf bs := by
        simp [bestLoop, hm, hgt]
      rw [this]
      exact ih (fun g hg hgm => h g (by simp [hg]) hgm)
    · have hm' : topic_matches_sub f topic = false := by
        cases hv : topic_matches_sub f topic
        · rfl
        · exact absurd hv hm
      have : bestLoop topic ((f, hh) :: rest) bf bs = bestLoop topic rest bf bs := by
        simp [bestLoop, hm']
      rw [this]
      exact ih (fun g hg hgm => h g (by simp [hg]) hgm)

lemma bestLoop_append {α : Type} (topic : String) (u v : List (String × Option α))
    (bf : Option String) (bs : Int × Int) :
    bestLoop topic (u ++ v) bf bs =
      bestLoop topic v (bestLoop topic u bf bs).1 (bestLoop topic u bf bs).2 := by
  induction u generalizing bf bs with
  | nil => simp [bestLoop]
  | cons e rest ih =>
    obtain ⟨f, h⟩ := e
    by_cases hm : topic_matches_sub f topic = true
    · by_cases hgt : pairGt (pscore f) bs = true
      · simp only [List.cons_append, bestLoop, hm, hgt, if_true]
        exact ih (some f) (pscore f)
      · have hgt' : pairGt (pscore f) bs = false := by
          cases hv : pairGt (pscore f) bs
          · rfl
          · exact absurd hv hgt
        simp only [List.cons_append, bestLoop, hm, hgt', if_true,
          Bool.false_eq_true, if_false]
        exact ih bf bs
    · have hm' : topic_matches_sub f topic = false := by
        cases hv : topic_matches_sub f topic
        · rfl
        · exact absurd hv hm
      simp only [List.cons_append, bestLoop, hm', Bool.false_eq_true, if_false]
      exact ih bf bs

lemma routesGet_eq_of_mem {α : Type} {routes : List (String × Option α)}
    {k : String} {v : Option α}
    (hnd : (routes.map Prod.fst).Nodup) (hmem : (k, v) ∈ routes) :
    routesGet routes k = some v := by
  induction routes with
  | nil => cases hmem
  | cons e rest ih =>
    obtain ⟨f, h⟩ := e
    simp only [List.map_cons, List.nodup_cons] at hnd
    rcases List.mem_cons.mp hmem with he | he
    · obtain ⟨hk, hv⟩ := Prod.mk.injEq .. ▸ he
      simp [routesGet, hk.symm, hv]
    · have hne : (f == k) = false := by
        have : k ∈ rest.map Prod.fst := List.mem_map_of_mem Prod.fst he
        by_cases hfk : f = k
        · exact absurd (hfk ▸ this) hnd.1
        · exact beq_eq_false_iff_ne.mpr hfk
      simp only [routesGet, hne, Bool.false_eq_true, if_false]
      exact ih hnd.2 he

/-! ### Claim theorems -/

/-- C1: message resolution returns the handler stored for a matching
filter of maximal score, and `none` when no stored filter matches; in
the concrete scenario, `sensors/#` bound to handler 1 and `sensors/temp`
bound to handler 2, a message on `sensors/temp` invokes handler 2 and a
message on `sensors/humidity` invokes handler 1. -/
theorem resolution_most_specific {α : Type} (routes : List (String × Option α))
    (topic : String) :
    ((∀ f ∈ routes.map Prod.fst, topic_matches_sub f topic = false) →
      matchHandler routes topic = none) ∧
    ((∃ f ∈ routes.map Prod.fst, topic_matches_sub f topic = true) →
      ∃ f ∈ routes.map Prod.fst, topic_matches_sub f topic = true ∧
        (∀ g ∈ routes.map Prod.fst, topic_matches_sub g topic = true →
          pairGt (pscore g) (pscore f) = false) ∧
        matchHandler routes topic = (routesGet routes f).join) ∧
    (onMessageRun [("sensors/#", some 1), ("sensors/temp", some 2)] none
      (fun _ _ => Except.ok ()) "sensors/temp").1 = some 2 ∧
    (onMessageRun [("sensors/#", some 1), ("sensors/temp", some 2)] none
      (fun _ _ => Except.ok ()) "sensors/humidity").1 = some 1 := by
  obtain ⟨horig, hall, -⟩ := bestLoop_inv topic routes none (-1, -1)
  refine ⟨?_, ?_, by decide, by decide⟩
  · intro hnone
    rcases horig with ⟨h1, _⟩ | ⟨g, _, h2, h3, _⟩
    · simp [matchHandler, h1]
      rcases hb : bestLoop topic routes none (-1, -1) with ⟨bff, bss⟩
      rw [hb] at h1
      simp at h1
      simp [hb, h1]
    · rw [hnone g h2] at h3
      cases h3
  · rintro ⟨f0, hf0, hf0m⟩
    rcases horig with ⟨h1, h2⟩ | ⟨g, h1, h2, h3, h4⟩
    · have := hall f0 hf0 hf0m
      rw [h2] at this
      rw [pairGt_init f0] at this
      cases this
    · refine ⟨g, h2, h3, ?_, ?_⟩
      · intro g' hg' hg'm
        have := hall g' hg' hg'm
        rwa [h4] at this
      · rcases hb : bestLoop topic routes none (-1, -1) with ⟨bff, bss⟩
        rw [hb] at h1
        simp at h1
        simp [matchHandler, hb, h1]

/-- C1 witness: in the two-filter table of the concrete scenario, some
filter matches `sensors/temp`, and the resolved handler is the stored
handler of a maximal-score matching filter. -/
theorem resolution_most_specific_witness :
    ∃ f ∈ ([("sensors/#", some 1), ("sensors/temp", some 2)] :
        List (String × Option Nat)).map Prod.fst,
      topic_matches_sub f "sensors/temp" = true ∧
      (∀ g ∈ ([("sensors/#", some 1), ("sensors/temp", some 2)] :
          List (String × Option Nat)).map Prod.fst,
        topic_matches_sub g "sensors/temp" = true →
        pairGt (pscore g) (pscore f) = false) ∧
      matchHandler [("sensors/#", some 1), ("sensors/temp", some 2)] "sensors/temp" =
        (routesGet [("sensors/#", some 1), ("sensors/temp", some 2)] f).join :=
  (resolution_most_specific [("sensors/#", some 1), ("sensors/temp", some 2)]
    "sensors/temp").2.1 ⟨"sensors/temp", by decide, by decide⟩

/-- C2 counterexample: `+/b/+` and `aaaa/#` both match `aaaa/b/c` and
have the same literal-segment count, and `+/b/+` has strictly more
segments; the claim then requires `+/b/+` (handler 1) to be chosen, but
the code compares character lengths and picks `aaaa/#` (handler 2). -/
theorem specificity_segment_count_counterexample :
    topic_matches_sub "+/b/+" "aaaa/b/c" = true ∧
    topic_matches_sub "aaaa/#" "aaaa/b/c" = true ∧
    nonWildcards "+/b/+" = nonWildcards "aaaa/#" ∧
    specSegCount "aaaa/#" < specSegCount "+/b/+" ∧
    matchHandler [("+/b/+", some 1), ("aaaa/#", some 2)] "aaaa/b/c" = some 2 := by
  decide

/-- C2 amended: the score ranking matching filters is the pair (number
of literal segments, character length of the filter string), compared
lexicographically; of two matching filters with the same literal count,
the one whose string is longer in characters is chosen, and on a fully
tied score the earlier entry is kept. -/
theorem specificity_literalcount_then_charlength {α : Type}
    (f g : String) (h1 h2 : Option α) (topic : String)
    (hfg : f ≠ g)
    (hf : topic_matches_sub f topic = true)
    (hg : topic_matches_sub g topic = true) :
    matchHandler [(f, h1), (g, h2)] topic =
      (if pairGt (pscore g) (pscore f) then h2 else h1) ∧
    (pairGt (pscore g) (pscore f) = true ↔
      (nonWildcards f < nonWildcards g ∨
        (nonWildcards g = nonWildcards f ∧ f.length < g.length))) := by
  constructor
  · have hne : (f == g) = false := beq_eq_false_iff_ne.mpr hfg
    have hne' : (g == f) = false := beq_eq_false_iff_ne.mpr (Ne.symm hfg)
    by_cases hgt : pairGt (pscore g) (pscore f) = true
    · simp [matchHandler, bestLoop, hf, hg, pairGt_init f, hgt, routesGet,
        hne', hfg]
    · have hgt' : pairGt (pscore g) (pscore f) = false := by
        cases hv : pairGt (pscore g) (pscore f)
        · rfl
        · exact absurd hv hgt
      simp [matchHandler, bestLoop, hf, hg, pairGt_init f, hgt', routesGet]
  · simp only [pairGt, pscore, decide_eq_true_eq]
    omega

/-- C3 counterexample: with steps `[A: success, B: failure, C: success]`
the pipeline does short-circuit (`C` never executes), but the aggregate
log line is the fixed string `PushToServerHandler: handler failed`,
identical whichever step fails, so the aggregate outcome does not report
`B` as the failing step. -/
theorem aggregate_log_counterexample :
    (runAll [⟨"A", true⟩, ⟨"B", false⟩, ⟨"C", true⟩]).1 = ["A", "B"] ∧
    (handleLog [⟨"A", true⟩, ⟨"B", false⟩, ⟨"C", true⟩]).2 =
      "PushToServerHandler: handler failed" ∧
    (handleLog [⟨"A", true⟩, ⟨"B", false⟩, ⟨"C", true⟩]).2 =
      (handleLog [⟨"A", true⟩, ⟨"Z", false⟩, ⟨"C", true⟩]).2 := by
  decide

/-- C3 amended: once a step returns failure no later step in that run is
executed, and the aggregate outcome is logged as failed — but with a
generic message that does not name the failing step (each step logs its
own failure separately). -/
theorem pipeline_short_circuit (pre : List StepDef) (s : StepDef)
    (post : List StepDef)
    (hpre : ∀ p ∈ pre, p.result = true) (hs : s.result = false) :
    runAll (pre ++ s :: post) = (pre.map StepDef.name ++ [s.name], false) ∧
    (handleLog (pre ++ s :: post)).2 = "PushToServerHandler: handler failed" := by
  have key : runAll (pre ++ s :: post) = (pre.map StepDef.name ++ [s.name], false) := by
    induction pre with
    | nil => simp [runAll, hs]
    | cons p rest ih =>
      have hp : p.result = true := hpre p (by simp)
      have hrest := ih (fun q hq => hpre q (by simp [hq]))
      simp [runAll, hp, hrest]
  refine ⟨key, ?_⟩
  simp [handleLog, key]

/-- C3 witness: concrete three-step run exercising the amended claim. -/
theorem pipeline_short_circuit_witness :
    runAll [⟨"A", true⟩, ⟨"B", false⟩, ⟨"C", true⟩] = (["A", "B"], false) ∧
    (handleLog [⟨"A", true⟩, ⟨"B", false⟩, ⟨"C", true⟩]).2 =
      "PushToServerHandler: handler failed" :=
  pipeline_short_circuit [⟨"A", true⟩] ⟨"B", false⟩ [⟨"C", true⟩]
    (by decide) (by decide)

/-- C4: a self-replacing step that succeeds replaces itself with the
no-op, so on every later pipeline run its body does not execute yet it
still reports success; a step that fails stays in place and its body
runs again on the next invocation. -/
theorem memoized_step_runs_once :
    runMemoStep StepSlot.original true = (StepSlot.memoNoop, true, true) ∧
    (∀ bodies : List Bool, runMemoSeq StepSlot.memoNoop bodies =
      bodies.map (fun _ => (true, false))) ∧
    runMemoStep StepSlot.original false = (StepSlot.original, false, true) ∧
    (∀ b : Bool, (runMemoStep StepSlot.original b).2.2 = true) := by
  refine ⟨rfl, ?_, rfl, ?_⟩
  · intro bodies
    induction bodies with
    | nil => rfl
    | cons b bs ih => simp [runMemoSeq, runMemoStep, ih]
  · intro b
    cases b <;> rfl

lemma replaySubs_fst (sr : String → Nat → Nat) (l : List (String × Nat)) :
    (replaySubs sr l).1 = l := by
  induction l with
  | nil => rfl
  | cons e rest ih => simp [replaySubs, ih]

/-- C5: on a connect event with reason code 0, the subscribe calls
issued are exactly the table entries (each filter once, at its stored
qos), they do not depend on which subscribe calls fail, and with unique
keys each entry receives exactly one call. -/
theorem reconnect_replays_each_filter_once (routeQos : List (String × Nat))
    (subResult subResult' : String → Nat → Nat) :
    (onConnect routeQos 0 subResult).1 = routeQos ∧
    (onConnect routeQos 0 subResult).1 = (onConnect routeQos 0 subResult').1 ∧
    (∀ fq ∈ routeQos, fq ∈ (onConnect routeQos 0 subResult).1) ∧
    ((routeQos.map Prod.fst).Nodup →
      ((onConnect routeQos 0 subResult).1.map Prod.fst).Nodup) := by
  refine ⟨by simp [onConnect, replaySubs_fst], by simp [onConnect, replaySubs_fst],
    ?_, ?_⟩
  · intro fq hfq
    simpa [onConnect, replaySubs_fst] using hfq
  · intro hnd
    simpa [onConnect, replaySubs_fst] using hnd

/-- C5 witness: two-entry table, a subscribe result that fails on the
first filter; both entries are still replayed exactly once. -/
theorem reconnect_replays_each_filter_once_witness :
    (onConnect [("a/b", 1), ("c/#", 2)] 0
      (fun f _ => if f = "a/b" then 1 else 0)).1 = [("a/b", 1), ("c/#", 2)] ∧
    (onConnect [("a/b", 1), ("c/#", 2)] 0
      (fun f _ => if f = "a/b" then 1 else 0)).1 =
      (onConnect [("a/b", 1), ("c/#", 2)] 0 (fun _ _ => 0)).1 ∧
    ("a/b", 1) ∈ (onConnect [("a/b", 1), ("c/#", 2)] 0
      (fun f _ => if f = "a/b" then 1 else 0)).1 ∧
    ((onConnect [("a/b", 1), ("c/#", 2)] 0
      (fun f _ => if f = "a/b" then 1 else 0)).1.map Prod.fst).Nodup := by
  obtain ⟨h1, h2, h3, h4⟩ := reconnect_replays_each_filter_once
    [("a/b", 1), ("c/#", 2)] (fun f _ => if f = "a/b" then 1 else 0) (fun _ _ => 0)
  exact ⟨h1, h2, h3 ("a/b", 1) (by decide), h4 (by decide)⟩

/-- C2 witness: for filters `sensors/temp` and `sensors/#`, both
matching topic `sensors/temp`, the chosen handler follows the
(literal count, character length) comparison. -/
theorem specificity_literalcount_then_charlength_witness :
    matchHandler [("sensors/temp", some 1), ("sensors/#", some 2)] "sensors/temp" =
      (if pairGt (pscore "sensors/#") (pscore "sensors/temp") then some 2 else some 1) ∧
    (pairGt (pscore "sensors/#") (pscore "sensors/temp") = true ↔
      (nonWildcards "sensors/temp" < nonWildcards "sensors/#" ∨
        (nonWildcards "sensors/#" = nonWildcards "sensors/temp" ∧
          "sensors/temp".length < "sensors/#".length))) :=
  specificity_literalcount_then_charlength "sensors/temp" "sensors/#"
    (some 1) (some 2) "sensors/temp" (by decide) (by decide) (by decide)

/-- C6 counterexample: `sensors/#/x` has a multi-level wildcard in a
non-final segment, yet `subscribe` on a fresh client stores it in the
subscription table and surfaces no failure of any kind. -/
theorem subscribe_rejects_malformed_counterexample :
    specValidFilter "sensors/#/x" = false ∧
    (subscribe initialState "sensors/#/x" (some 1) none (fun _ _ => 0)).routes =
      [("sensors/#/x", some 1)] ∧
    (subscribe initialState "sensors/#/x" (some 1) none (fun _ _ => 0)).subErrors =
      [] := by
  decide

lemma dictSet_mem_keys {β : Type} (l : List (String × β)) (k : String) (v : β) :
    k ∈ (dictSet l k v).map Prod.fst := by
  induction l with
  | nil => simp [dictSet]
  | cons e rest ih =>
    obtain ⟨f, w⟩ := e
    by_cases hfk : (f == k) = true
    · simp [dictSet, hfk]
    · have hfk' : (f == k) = false := by
        cases hv : (f == k)
        · rfl
        · exact absurd hv hfk
      simp [dictSet, hfk', ih]

/-- C6 amended: `subscribe` performs no filter validation — every
filter, malformed or not, is stored into the subscription table, and no
validation failure is surfaced to the caller (while disconnected not
even a transport error is logged). -/
theorem subscribe_no_validation {α : Type} (st : ClientState α) (filt : String)
    (handler : Option α) (qosArg : Option Nat)
    (subResult : String → Nat → Nat) :
    (subscribe st filt handler qosArg subResult).routes =
      dictSet st.routes filt handler ∧
    filt ∈ (subscribe st filt handler qosArg subResult).routes.map Prod.fst ∧
    (st.loopRunning = false →
      (subscribe st filt handler qosArg subResult).subErrors = st.subErrors) := by
  have hroutes : (subscribe st filt handler qosArg subResult).routes =
      dictSet st.routes filt handler := by
    by_cases hl : st.loopRunning = true <;> simp [subscribe, hl]
  refine ⟨hroutes, ?_, ?_⟩
  · rw [hroutes]
    exact dictSet_mem_keys st.routes filt handler
  · intro hl
    simp [subscribe, hl]

/-- C6 witness: subscribing the malformed filter `sensors/#/x` on a
fresh client stores it and logs nothing. -/
theorem subscribe_no_validation_witness :
    (subscribe initialState "sensors/#/x" (some 1) none (fun _ _ => 0)).routes =
      dictSet initialState.routes "sensors/#/x" (some 1) ∧
    "sensors/#/x" ∈ (subscribe initialState "sensors/#/x" (some 1) none
      (fun _ _ => 0)).routes.map Prod.fst ∧
    (subscribe initialState "sensors/#/x" (some 1) none
      (fun _ _ => 0)).subErrors = initialState.subErrors := by
  obtain ⟨h1, h2, h3⟩ := subscribe_no_validation initialState "sensors/#/x"
    (some 1) none (fun _ _ => 0)
  exact ⟨h1, h2, h3 rfl⟩

/-- C7: `start()` is idempotent — a second call in a row leaves the
whole observable state (including the count of connect attempts and
loop starts) unchanged — and `stop()` on a session whose loop is not
running is a no-op. -/
theorem start_idempotent_stop_noop {α : Type} (st : ClientState α) :
    start (start st) = start st ∧
    (start st).loopRunning = true ∧
    (st.loopRunning = false → stop st = st) := by
  refine ⟨?_, ?_, ?_⟩
  · by_cases hl : st.loopRunning = true <;> simp [start, hl]
  · by_cases hl : st.loopRunning = true <;> simp [start, hl]
  · intro hl
    simp [stop, hl]

/-- C7 witness: on the fresh client state, two starts equal one start
and a stop is the identity. -/
theorem start_idempotent_stop_noop_witness :
    start (start initialState) = start initialState ∧
    (start initialState).loopRunning = true ∧
    stop initialState = initialState := by
  obtain ⟨h1, h2, h3⟩ := start_idempotent_stop_noop initialState
  exact ⟨h1, h2, h3 rfl⟩

/-- C8: every exception a message handler raises is caught inside
`_on_message` (delivery of a list of messages is the independent
per-message processing, unaffected by earlier handlers raising — shown
both in general and on a concrete raising handler), and an exception
inside a pipeline step body becomes the failure result `false`. -/
theorem handler_exceptions_isolated {α : Type}
    (routes : List (String × Option α)) (default : Option α)
    (beh : α → String → Except String Unit) (ts us : List String) :
    deliverAll routes default beh (ts ++ us) =
      deliverAll routes default beh ts ++ deliverAll routes default beh us ∧
    deliverAll routes default beh ts = ts.map (onMessageRun routes default beh) ∧
    (∀ e : String, stepResult (Except.error e) = false) ∧
    deliverAll [("a", some 0), ("b", some 1)] none
      (fun h _ => if h = 0 then Except.error "boom" else Except.ok ()) ["a", "b"] =
      [(some 0, true), (some 1, false)] := by
  refine ⟨?_, ?_, fun e => rfl, by decide⟩
  · induction ts with
    | nil => rfl
    | cons t rest ih => simp [deliverAll, ih]
  · induction ts with
    | nil => rfl
    | cons t rest ih => simp [deliverAll, ih]

/-- C9: when the maximal-score matching filter was stored with no
handler, resolution returns `none` and the message falls back to the
default handler, even though a lower-specificity matching filter has a
handler (shown concretely with `sensors/temp` handler-less shadowing
`sensors/#`). -/
theorem handlerless_filter_shadows {α : Type}
    (routes : List (String × Option α)) (topic f : String)
    (hnd : (routes.map Prod.fst).Nodup)
    (hmem : (f, (none : Option α)) ∈ routes)
    (hmatch : topic_matches_sub f topic = true)
    (hmax : ∀ g ∈ routes.map Prod.fst, g ≠ f →
      topic_matches_sub g topic = true → pairGt (pscore f) (pscore g) = true) :
    matchHandler routes topic = none ∧
    (∀ default : Option α, onMessageResolve routes default topic = default) ∧
    onMessageResolve [("sensors/temp", (none : Option Nat)), ("sensors/#", some 1)]
      (some 7) "sensors/temp" = some 7 := by
  have hfkeys : f ∈ routes.map Prod.fst := List.mem_map_of_mem Prod.fst hmem
  obtain ⟨horig, hall, -⟩ := bestLoop_inv topic routes none (-1, -1)
  rcases hb : bestLoop topic routes none (-1, -1) with ⟨bf0, bs0⟩
  rw [hb] at horig hall
  have hbest : bf0 = some f := by
    rcases horig with ⟨h1, h2⟩ | ⟨g, h1, h2, h3, h4⟩
    · exfalso
      have := hall f hfkeys hmatch
      simp only at h2
      rw [h2, pairGt_init f] at this
      cases this
    · by_cases hgf : g = f
      · simp only at h1
        rw [hgf] at h1
        exact h1
      · exfalso
        have hlt := hmax g h2 hgf h3
        have hge := hall f hfkeys hmatch
        simp only at h4
        rw [h4] at hge
        rw [hlt] at hge
        cases hge

  have hmain : matchHandler routes topic = none := by
    simp [matchHandler, hb, hbest, routesGet_eq_of_mem hnd hmem]
  refine ⟨hmain, ?_, by decide⟩
  intro default
  simp [onMessageResolve, hmain]

/-- C9 witness: in the table with handler-less `sensors/temp` and
`sensors/#` bound to handler 1, resolution of `sensors/temp` returns
`none` and dispatch falls back to the default handler 7. -/
theorem handlerless_filter_shadows_witness :
    matchHandler [("sensors/temp", (none : Option Nat)), ("sensors/#", some 1)]
      "sensors/temp" = none ∧
    onMessageResolve [("sensors/temp", (none : Option Nat)), ("sensors/#", some 1)]
      (some 7) "sensors/temp" = some 7 := by
  obtain ⟨h1, h2, -⟩ := handlerless_filter_shadows
    [("sensors/temp", (none : Option Nat)), ("sensors/#", some 1)]
    "sensors/temp" "sensors/temp" (by decide) (by decide) (by decide) (by decide)
  exact ⟨h1, h2 (some 7)⟩

/-- C10: with ties on the maximal score, resolution keeps the first
candidate encountered, i.e. the earliest-inserted filter among the tied
maximal-score matching filters: if every matching filter before `f` has
a strictly smaller score and no matching filter after `f` has a strictly
greater one, the handler stored for `f` is returned. -/
theorem tie_first_inserted {α : Type} (topic : String)
    (u v : List (String × Option α)) (f : String) (hf : Option α)
    (hnd : ((u ++ (f, hf) :: v).map Prod.fst).Nodup)
    (hmatch : topic_matches_sub f topic = true)
    (hu : ∀ g ∈ u.map Prod.fst, topic_matches_sub g topic = true →
      pairGt (pscore f) (pscore g) = true)
    (hv : ∀ g ∈ v.map Prod.fst, topic_matches_sub g topic = true →
      pairGt (pscore g) (pscore f) = false) :
    matchHandler (u ++ (f, hf) :: v) topic = hf := by
  obtain ⟨horig, -, -⟩ := bestLoop_inv topic u (none : Option String) (-1, -1)
  rcases hb : bestLoop topic u (none : Option String) (-1, -1) with ⟨bf0, bs0⟩
  rw [hb] at horig
  have hgt : pairGt (pscore f) bs0 = true := by
    rcases horig with ⟨h1, h2⟩ | ⟨g, h1, h2, h3, h4⟩
    · simp only at h2
      rw [h2]
      exact pairGt_init f
    · simp only at h4
      rw [h4]
      exact hu g h2 h3
  have hstep : bestLoop topic (u ++ (f, hf) :: v) none (-1, -1) = (some f, pscore f) := by
    rw [bestLoop_append, hb]
    have h1 : bestLoop topic ((f, hf) :: v) bf0 bs0 =
        bestLoop topic v (some f) (pscore f) := by
      simp [bestLoop, hmatch, hgt]
    simp only
    rw [h1, bestLoop_keep]
    exact hv
  have hfin : (f, hf) ∈ u ++ (f, hf) :: v :=
    List.mem_append_right u (List.mem_cons_self _ _)
  simp [matchHandler, hstep, routesGet_eq_of_mem hnd hfin]

/-- C10 witness: `a/+` and `+/b` both match `a/b` with identical scores;
the earlier-inserted `a/+` wins and its handler 1 is returned. -/
theorem tie_first_inserted_witness :
    matchHandler [("a/+", some 1), ("+/b", some 2)] "a/b" = some 1 :=
  tie_first_inserted "a/b" [] [("+/b", some 2)] "a/+" (some 1)
    (by decide) (by decide) (by decide) (by decide)

end Pyot
